import Mathlib

/-!
Verification of the Drag Race Tournament Manager core (src/app.py).

The Python classes `DriverStatus`, `Driver`, `Race`, `TournamentManager`
and the `update_driver` route handler are shallowly embedded as Lean
definitions. Python dicts are modelled as association lists (preserving
insertion order, which Python dicts guarantee); the mutating methods
become state-passing functions. `record_race` returns an `Option`: the
value `none` models the `KeyError` raised when the body indexes
`self.drivers` with a name that is not a key (the partially mutated
state at the moment of the raise is not part of the normal return and
is not modelled). `datetime.now().isoformat()` is modelled by an
explicit `now : String` argument. Python's stable `list.sort` is
modelled by `List.mergeSort`, which is stable. `win_ratio` (a Python
float division) is modelled as an exact rational.
-/

namespace DragRace

/-- The `DriverStatus` string constants of the source. -/
inductive DriverStatus where
  | ACTIVE
  | ELIMINATED
  | INACTIVE
deriving DecidableEq, Repr

/-- The `Driver` class: identity, division and accumulated record. -/
structure Driver where
  name : String
  division : String
  wins : Nat
  losses : Nat
  races : List Nat
  status : DriverStatus
deriving DecidableEq, Repr

/-- Property `Driver.total_races`: `self.wins + self.losses`. -/
def Driver.total_races (d : Driver) : Nat :=
  d.wins + d.losses

/-- Property `Driver.win_ratio`: `wins / total_races` if positive, else `0.0`. -/
def Driver.win_ratio (d : Driver) : ℚ :=
  if 0 < d.total_races then (d.wins : ℚ) / (d.total_races : ℚ) else 0

/-- Property `Driver.is_eliminated`: `self.losses >= 3`. -/
def Driver.is_eliminated (d : Driver) : Bool :=
  decide (3 ≤ d.losses)

/-- Method `Driver.update_status`. -/
def Driver.update_status (d : Driver) : Driver :=
  if d.is_eliminated then { d with status := DriverStatus.ELIMINATED }
  else { d with status := DriverStatus.ACTIVE }

/-- Method `Driver.add_race_result`: append the race number, bump the
counter selected by `won`, recompute the status. -/
def Driver.add_race_result (d : Driver) (race_number : Nat) (won : Bool) : Driver :=
  let d1 := { d with races := d.races ++ [race_number] }
  let d2 := if won then { d1 with wins := d1.wins + 1 } else { d1 with losses := d1.losses + 1 }
  d2.update_status

/-- The dict produced by `Driver.to_dict`: every key present. Absent keys
in a hand-built snapshot are the `none` values. -/
structure DriverSnapshot where
  name : String
  division : String
  wins : Option Nat
  losses : Option Nat
  races : Option (List Nat)
  status : Option DriverStatus
deriving DecidableEq, Repr

/-- Method `Driver.to_dict`. -/
def Driver.to_dict (d : Driver) : DriverSnapshot :=
  { name := d.name
    division := d.division
    wins := some d.wins
    losses := some d.losses
    races := some d.races
    status := some d.status }

/-- Classmethod `Driver.from_dict`: `name` and `division` are read with
`data[...]` (required), the rest with `data.get(..., default)`. -/
def Driver.from_dict (data : DriverSnapshot) : Driver :=
  { name := data.name
    division := data.division
    wins := data.wins.getD 0
    losses := data.losses.getD 0
    races := data.races.getD []
    status := data.status.getD DriverStatus.ACTIVE }

/-- The `Race` class fields. -/
structure Race where
  race_number : Nat
  driver1 : String
  driver2 : String
  winner : String
  division : String
  timestamp : String
  driver3 : Option String
  race_type : String
deriving DecidableEq, Repr

/-- Constructor `Race.__init__`: `self.timestamp = timestamp or datetime.now().isoformat()`,
so a missing (`None`) or empty (falsy) timestamp becomes the current time,
modelled by the `now` argument. -/
def Race.init (race_number : Nat) (driver1 driver2 winner division : String)
    (timestamp : Option String) (now : String)
    (driver3 : Option String) (race_type : String) : Race :=
  { race_number := race_number
    driver1 := driver1
    driver2 := driver2
    winner := winner
    division := division
    timestamp :=
      match timestamp with
      | none => now
      | some t => if t = "" then now else t
    driver3 := driver3
    race_type := race_type }

/-- The dict produced by `Race.to_dict`; `none` in `timestamp`/`race_type`
models an absent key in a hand-built snapshot, and `driver3` collapses an
absent key and an explicit `null` (both give `None` to `Race.__init__`). -/
structure RaceSnapshot where
  race_number : Nat
  driver1 : String
  driver2 : String
  winner : String
  division : String
  timestamp : Option String
  driver3 : Option String
  race_type : Option String
deriving DecidableEq, Repr

/-- Method `Race.to_dict`. -/
def Race.to_dict (r : Race) : RaceSnapshot :=
  { race_number := r.race_number
    driver1 := r.driver1
    driver2 := r.driver2
    winner := r.winner
    division := r.division
    timestamp := some r.timestamp
    driver3 := r.driver3
    race_type := some r.race_type }

/-- The call `Race(**race_data)` in `TournamentManager.from_dict`: absent
keys fall back to the constructor defaults (`timestamp=None`,
`driver3=None`, `race_type="regular"`). -/
def Race.of_dict (data : RaceSnapshot) (now : String) : Race :=
  Race.init data.race_number data.driver1 data.driver2 data.winner data.division
    data.timestamp now data.driver3 (data.race_type.getD "regular")

/-- The `TournamentManager` state: `self.drivers` (a dict, modelled as an
insertion-ordered association list), `self.races`, `self.race_counter`.
`self.divisions` is the fixed constant `divisions` below. -/
structure TournamentManager where
  drivers : List (String × Driver)
  races : List Race
  race_counter : Nat
deriving DecidableEq, Repr

/-- The fixed division list from `TournamentManager.__init__`. -/
def divisions : List String :=
  ["2X4_4CYL", "4X4_4CYL", "4X4_6CYL_PETROL",
   "4X4_6CYL_DIESEL", "4X4_V8_PETROL", "4X4_V8_DIESEL",
   "DAMES", "OPEN"]

/-- Python `str.strip()`: drop whitespace from both ends. Implemented on
the character list so that it evaluates inside the kernel (Lean's own
`String.trim` reduces through `Substring` code the kernel cannot run). -/
def pyStrip (s : String) : String :=
  String.mk (((s.data.dropWhile Char.isWhitespace).reverse.dropWhile
    Char.isWhitespace).reverse)

/-- Python truthiness of an optional string (`if driver3_name:`):
`None` and `""` are falsy. -/
def truthy (o : Option String) : Bool :=
  match o with
  | none => false
  | some t => t ≠ ""

/-- The `racing_drivers` list built by `record_race`: the two primary
drivers, plus `driver3_name` when it is truthy. -/
def racingList (driver1_name driver2_name : String) (driver3_name : Option String) :
    List String :=
  if truthy driver3_name then [driver1_name, driver2_name, driver3_name.getD ""]
  else [driver1_name, driver2_name]

/-- Mutation of the `Driver` object stored under key `n`
(`self.drivers[n].foo = ...` through an alias). -/
def updateAt (ds : List (String × Driver)) (n : String) (f : Driver → Driver) :
    List (String × Driver) :=
  ds.map (fun p => if p.1 = n then (p.1, f p.2) else p)

/-- Method `TournamentManager.add_driver`. -/
def TournamentManager.add_driver (s : TournamentManager) (name division : String) :
    TournamentManager × Bool × String :=
  let name := pyStrip name
  if name = "" ∨ (s.drivers.lookup name).isSome then
    (s, false, s!"Driver {name} already exists or is empty")
  else if division ∉ divisions then
    (s, false, s!"Invalid division: {division}")
  else
    ({ s with drivers := s.drivers ++ [(name, Driver.mk name division 0 0 [] DriverStatus.ACTIVE)] },
      true, s!"Successfully added {name} to {division}")

/-- Method `TournamentManager.record_race`. The checks appear in source
order: existence of the two primary drivers, winner membership, equal
divisions, neither primary driver eliminated. A `none` result models the
`KeyError` raised by `self.drivers[winner_name]` (line 166) or
`self.drivers[driver_name]` in the loser loop (line 171) when a racing
driver is not a key of the dict; with the earlier checks passed this
happens exactly when a truthy `driver3_name` is not a key. -/
def TournamentManager.record_race (s : TournamentManager)
    (driver1_name driver2_name winner_name : String)
    (driver3_name : Option String) (race_type : String) (now : String) :
    Option (TournamentManager × Bool × String) :=
  match s.drivers.lookup driver1_name, s.drivers.lookup driver2_name with
  | some driver1, some driver2 =>
    let racing_drivers := racingList driver1_name driver2_name driver3_name
    if winner_name ∉ racing_drivers then
      some (s, false, "Winner must be one of the racing drivers")
    else if driver1.division ≠ driver2.division then
      some (s, false, "Drivers must be in the same division")
    else if driver1.is_eliminated || driver2.is_eliminated then
      some (s, false, "Eliminated drivers cannot race")
    else if racing_drivers.all (fun n => (s.drivers.lookup n).isSome) then
      let rc := s.race_counter + 1
      let race := Race.init rc driver1_name driver2_name winner_name driver1.division
        none now driver3_name race_type
      let ds1 := updateAt s.drivers winner_name (fun d => d.add_race_result rc true)
      let ds2 := racing_drivers.foldl
        (fun ds n => if n = winner_name then ds
          else updateAt ds n (fun d => d.add_race_result rc false)) ds1
      some ({ drivers := ds2, races := s.races ++ [race], race_counter := rc },
        true, s!"Race {rc}: {winner_name} wins!")
    else
      none
  | _, _ => some (s, false, "Driver not found")

/-- A ranking entry as built by `get_rankings`. -/
structure RankRecord where
  position : Nat
  name : String
  division : String
  wins : Nat
  losses : Nat
  total_races : Nat
  win_ratio : ℚ
  status : DriverStatus
deriving DecidableEq, Repr

/-- One entry of the rankings list. -/
def rankEntry (position : Nat) (d : Driver) : RankRecord :=
  { position := position
    name := d.name
    division := d.division
    wins := d.wins
    losses := d.losses
    total_races := d.total_races
    win_ratio := d.win_ratio
    status := d.status }

/-- The lexicographic sort-key type for rankings. -/
abbrev RankKey := Bool ×ₗ Int ×ₗ ℚ ×ₗ Nat

/-- The sort key of `get_rankings` as the SOURCE computes it:
`(d.status == DriverStatus.ELIMINATED, -d.wins, -d.win_ratio, d.losses)`,
compared ascending and lexicographically (Python tuple order; Python
booleans order `False < True`). -/
def rankKey (d : Driver) : RankKey :=
  toLex (decide (d.status = DriverStatus.ELIMINATED),
    toLex (-(d.wins : Int), toLex (-d.win_ratio, d.losses)))

/-- Boolean comparator for the stable sort in `get_rankings`. -/
def rankLe (a b : Driver) : Bool :=
  decide (rankKey a ≤ rankKey b)

/-- The filtered pool of drivers `get_rankings` starts from:
`self.drivers.values()`, optionally restricted to one division. -/
def rankPool (s : TournamentManager) (division : Option String) : List Driver :=
  (s.drivers.map Prod.snd).filter
    (fun d =>
      match division with
      | none => true
      | some dv => d.division = dv)

/-- The loop `enumerate(drivers_to_rank, 1)` packaged into rank records. -/
def enumerate1 : Nat → List Driver → List RankRecord
  | _, [] => []
  | i, d :: ds => rankEntry i d :: enumerate1 (i + 1) ds

/-- Method `TournamentManager.get_rankings`: filter, stable-sort by the
composite key, annotate with 1-based positions. -/
def TournamentManager.get_rankings (s : TournamentManager) (division : Option String) :
    List RankRecord :=
  enumerate1 1 ((rankPool s division).mergeSort rankLe)

/-- Method `TournamentManager.get_active_drivers`. -/
def TournamentManager.get_active_drivers (s : TournamentManager) (division : String) :
    List String :=
  (s.drivers.filter
    (fun p => p.2.division = division ∧ p.2.status = DriverStatus.ACTIVE)).map Prod.fst

/-- The stats dict of `get_tournament_stats`. -/
structure Stats where
  total_drivers : Nat
  active_drivers : Nat
  eliminated_drivers : Nat
  total_races : Nat
  divisions : Nat
deriving DecidableEq, Repr

/-- Method `TournamentManager.get_tournament_stats`; `len(set(...))` is the
length of the deduplicated division list. -/
def TournamentManager.get_tournament_stats (s : TournamentManager) : Stats :=
  { total_drivers := s.drivers.length
    active_drivers :=
      ((s.drivers.map Prod.snd).filter (fun d => d.status = DriverStatus.ACTIVE)).length
    eliminated_drivers :=
      ((s.drivers.map Prod.snd).filter (fun d => d.status = DriverStatus.ELIMINATED)).length
    total_races := s.races.length
    divisions := ((s.drivers.map (fun p => p.2.division)).dedup).length }

/-- The dict produced by `TournamentManager.to_dict`; a `none`
`race_counter` models a snapshot without that key. -/
structure TournamentSnapshot where
  drivers : List (String × DriverSnapshot)
  races : List RaceSnapshot
  race_counter : Option Nat
deriving DecidableEq, Repr

/-- Method `TournamentManager.to_dict`. -/
def TournamentManager.to_dict (s : TournamentManager) : TournamentSnapshot :=
  { drivers := s.drivers.map (fun p => (p.1, p.2.to_dict))
    races := s.races.map Race.to_dict
    race_counter := some s.race_counter }

/-- Method `TournamentManager.from_dict`: rebuild `drivers` and `races`
wholesale, take `race_counter` from the data or default it to the number
of imported races. -/
def TournamentManager.from_dict (data : TournamentSnapshot) (now : String) :
    TournamentManager :=
  { drivers := data.drivers.map (fun p => (p.1, Driver.from_dict p.2))
    races := data.races.map (fun r => Race.of_dict r now)
    race_counter := data.race_counter.getD data.races.length }

/-- The `update_driver` route handler (PUT /api/drivers/<driver_name>):
trim the submitted name and division, validate, then rename and/or move
the driver record. `name_data`/`division_data` are `data.get('name', '')`
and `data.get('division', '')`. -/
def update_driver (s : TournamentManager) (driver_name : String)
    (name_data division_data : Option String) : TournamentManager × Bool × String :=
  let new_name := pyStrip (name_data.getD "")
  let new_division := pyStrip (division_data.getD "")
  if new_name = "" ∨ new_division = "" then
    (s, false, "Name and division are required")
  else if new_division ∉ divisions then
    (s, false, s!"Invalid division: {new_division}")
  else
    match s.drivers.lookup driver_name with
    | none => (s, false, s!"Driver {driver_name} not found")
    | some driver =>
      if new_name ≠ driver_name ∧ (s.drivers.lookup new_name).isSome then
        (s, false, s!"Driver {new_name} already exists")
      else if new_name ≠ driver_name then
        ({ s with drivers :=
            ((s.drivers.eraseP (fun p => p.1 == driver_name)) ++
              [(new_name, { driver with name := new_name, division := new_division })]) },
          true, "Driver updated successfully")
      else
        ({ s with drivers :=
            (updateAt s.drivers driver_name (fun d => { d with division := new_division })) },
          true, "Driver updated successfully")

/-! ### Shared helper definitions used by the claims -/

/-- Sum of a numeric driver field over the drivers mapping. -/
def sumBy (g : Driver → Nat) (ds : List (String × Driver)) : Nat :=
  (ds.map (fun p => g p.2)).sum

/-- The sort key of `get_rankings` recomputed from a ranking record
(every field the key reads is copied into the record). -/
def recKey (r : RankRecord) : RankKey :=
  toLex (decide (r.status = DriverStatus.ELIMINATED),
    toLex (-(r.wins : Int), toLex (-r.win_ratio, r.losses)))

/-- The sort key as the claim states it, on a ranking record: first
component the derived predicate `losses >= 3` instead of the stored
status field. -/
def claimRecKey (r : RankRecord) : RankKey :=
  toLex (decide (3 ≤ r.losses),
    toLex (-(r.wins : Int), toLex (-r.win_ratio, r.losses)))

/-- Forget the position annotation of a ranking record. -/
def clearPos (r : RankRecord) : RankRecord :=
  { r with position := 0 }

/-- The validation outcomes `record_race` can report. -/
inductive FailKind where
  | notFound
  | badWinner
  | divMismatch
  | eliminated
deriving DecidableEq, Repr

/-- The message the source attaches to each failed check. -/
def FailKind.message : FailKind → String
  | FailKind.notFound => "Driver not found"
  | FailKind.badWinner => "Winner must be one of the racing drivers"
  | FailKind.divMismatch => "Drivers must be in the same division"
  | FailKind.eliminated => "Eliminated drivers cannot race"

/-- Modelled from the spec wording of the claim: the first failing check
among, in order, (1) existence of the two primary drivers, (2) winner
membership in the participant set, (3) equal divisions, (4) neither
primary driver eliminated; `none` when every check passes. -/
def specFirstFailure (s : TournamentManager) (driver1_name driver2_name winner_name : String)
    (driver3_name : Option String) : Option FailKind :=
  match s.drivers.lookup driver1_name, s.drivers.lookup driver2_name with
  | some driver1, some driver2 =>
    if winner_name ∉ racingList driver1_name driver2_name driver3_name then
      some FailKind.badWinner
    else if driver1.division ≠ driver2.division then some FailKind.divMismatch
    else if driver1.is_eliminated || driver2.is_eliminated then some FailKind.eliminated
    else none
  | _, _ => some FailKind.notFound

/-- The failure view of a `record_race` result: the message when the
result is a normal `(False, message)` return, `none` on success or on a
raised exception. -/
def failureOf (r : Option (TournamentManager × Bool × String)) : Option String :=
  match r with
  | some (_, false, m) => some m
  | _ => none

/-- One race-recording request, as a transport layer would submit it. -/
structure RaceCmd where
  driver1 : String
  driver2 : String
  winner : String
  driver3 : Option String
  race_type : String
deriving DecidableEq, Repr

/-- Run a sequence of `record_race` requests, counting the successful
recordings and their participant slots (2 for a two-driver race, 3 when a
truthy third driver was submitted). A failed request leaves the returned
state as `record_race` returned it; a raised request keeps the prior
state (the claims using this exclude raising requests by hypothesis). -/
def runRaces (now : String) : TournamentManager → List RaceCmd → TournamentManager × Nat × Nat
  | s, [] => (s, 0, 0)
  | s, c :: rest =>
    match s.record_race c.driver1 c.driver2 c.winner c.driver3 c.race_type now with
    | some (s', true, _) =>
      let r := runRaces now s' rest
      (r.1, r.2.1 + 1, r.2.2 + (racingList c.driver1 c.driver2 c.driver3).length)
    | some (s', false, _) => runRaces now s' rest
    | none => runRaces now s rest

/-! ### Helper lemmas -/

theorem lookup_isSome_iff (ds : List (String × Driver)) (n : String) :
    (ds.lookup n).isSome ↔ n ∈ ds.map Prod.fst := by
  induction ds with
  | nil => simp [List.lookup]
  | cons p tl ih =>
    obtain ⟨k, d⟩ := p
    by_cases h : n = k
    · subst h; simp [List.lookup]
    · simp [List.lookup, beq_false_of_ne h, h, ih]

theorem lookup_cons_self (k : String) (d : Driver) (tl : List (String × Driver)) :
    List.lookup k ((k, d) :: tl) = some d := by
  simp [List.lookup]

theorem lookup_cons_ne (m k : String) (d : Driver) (tl : List (String × Driver))
    (h : m ≠ k) : List.lookup m ((k, d) :: tl) = List.lookup m tl := by
  simp [List.lookup, beq_false_of_ne h]

theorem updateAt_nil (n : String) (f : Driver → Driver) : updateAt [] n f = [] := rfl

theorem updateAt_cons (k : String) (d : Driver) (tl : List (String × Driver))
    (n : String) (f : Driver → Driver) :
    updateAt ((k, d) :: tl) n f =
      (if k = n then (k, f d) else (k, d)) :: updateAt tl n f := by
  by_cases h : k = n <;> simp [updateAt, h]

theorem lookup_updateAt (ds : List (String × Driver)) (n m : String) (f : Driver → Driver) :
    (updateAt ds n f).lookup m = if m = n then (ds.lookup m).map f else ds.lookup m := by
  induction ds with
  | nil => simp [updateAt_nil, List.lookup]
  | cons p tl ih =>
    obtain ⟨k, d⟩ := p
    rw [updateAt_cons]
    by_cases hkn : k = n
    · rw [if_pos hkn]
      by_cases hmk : m = k
      · subst hmk
        rw [lookup_cons_self, lookup_cons_self, if_pos hkn]
        rfl
      · rw [lookup_cons_ne m k (f d) _ hmk, lookup_cons_ne m k d _ hmk, ih]
    · rw [if_neg hkn]
      by_cases hmk : m = k
      · subst hmk
        rw [lookup_cons_self, lookup_cons_self, if_neg hkn]
      · rw [lookup_cons_ne m k d _ hmk, lookup_cons_ne m k d _ hmk, ih]

theorem keys_updateAt (ds : List (String × Driver)) (n : String) (f : Driver → Driver) :
    (updateAt ds n f).map Prod.fst = ds.map Prod.fst := by
  induction ds with
  | nil => rfl
  | cons p tl ih =>
    obtain ⟨k, d⟩ := p
    rw [updateAt_cons]
    by_cases hkn : k = n
    · rw [if_pos hkn]; simp [ih]
    · rw [if_neg hkn]; simp [ih]

theorem updateAt_of_not_mem (ds : List (String × Driver)) (n : String) (f : Driver → Driver)
    (h : n ∉ ds.map Prod.fst) : updateAt ds n f = ds := by
  induction ds with
  | nil => rfl
  | cons p tl ih =>
    obtain ⟨k, d⟩ := p
    simp only [List.map_cons, List.mem_cons] at h
    push_neg at h
    rw [updateAt_cons, if_neg (Ne.symm h.1), ih h.2]

theorem sumBy_cons (g : Driver → Nat) (k : String) (d : Driver) (tl : List (String × Driver)) :
    sumBy g ((k, d) :: tl) = g d + sumBy g tl := by
  simp [sumBy]

theorem sumBy_updateAt (g : Driver → Nat) (ds : List (String × Driver)) (n : String)
    (f : Driver → Driver) (d : Driver)
    (hnd : (ds.map Prod.fst).Nodup) (hl : ds.lookup n = some d) :
    sumBy g (updateAt ds n f) + g d = sumBy g ds + g (f d) := by
  induction ds with
  | nil => simp [List.lookup] at hl
  | cons p tl ih =>
    obtain ⟨k, d0⟩ := p
    simp only [List.map_cons, List.nodup_cons] at hnd
    rw [updateAt_cons]
    by_cases h : k = n
    · rw [if_pos h]
      subst h
      rw [lookup_cons_self] at hl
      injection hl with hl
      subst hl
      rw [updateAt_of_not_mem tl k f hnd.1, sumBy_cons, sumBy_cons]
      omega
    · rw [if_neg h]
      rw [lookup_cons_ne n k d0 tl (fun hn => h hn.symm)] at hl
      have := ih hnd.2 hl
      rw [sumBy_cons, sumBy_cons]
      omega

theorem add_race_result_wins (d : Driver) (rn : Nat) (won : Bool) :
    (d.add_race_result rn won).wins = if won then d.wins + 1 else d.wins := by
  cases won <;> simp [Driver.add_race_result, Driver.update_status] <;> split <;> rfl

theorem add_race_result_losses (d : Driver) (rn : Nat) (won : Bool) :
    (d.add_race_result rn won).losses = if won then d.losses else d.losses + 1 := by
  cases won <;> simp [Driver.add_race_result, Driver.update_status] <;> split <;> rfl

theorem foldl_losers (rc : Nat) (w : String) (racing : List String) :
    ∀ ds : List (String × Driver),
    (ds.map Prod.fst).Nodup →
    (∀ n ∈ racing, (ds.lookup n).isSome) →
    ((racing.foldl
        (fun ds n => if n = w then ds else updateAt ds n (fun d => d.add_race_result rc false))
        ds).map Prod.fst = ds.map Prod.fst ∧
      sumBy Driver.wins
        (racing.foldl
          (fun ds n => if n = w then ds else updateAt ds n (fun d => d.add_race_result rc false))
          ds) = sumBy Driver.wins ds ∧
      sumBy Driver.losses
        (racing.foldl
          (fun ds n => if n = w then ds else updateAt ds n (fun d => d.add_race_result rc false))
          ds) = sumBy Driver.losses ds + ((racing.filter (fun n => n ≠ w)).length)) := by
  induction racing with
  | nil => intro ds _ _; simp
  | cons n rest ih =>
    intro ds hnd hpres
    rw [List.foldl_cons]
    by_cases hw : n = w
    · rw [if_pos hw]
      have := ih ds hnd (fun m hm => hpres m (List.mem_cons_of_mem n hm))
      simpa [List.filter_cons, hw] using this
    · rw [if_neg hw]
      obtain ⟨d, hd⟩ := Option.isSome_iff_exists.mp (hpres n (List.mem_cons_self n rest))
      have hkeys : (updateAt ds n (fun d => d.add_race_result rc false)).map Prod.fst =
          ds.map Prod.fst := keys_updateAt ds n _
      have hnd' : ((updateAt ds n (fun d => d.add_race_result rc false)).map Prod.fst).Nodup := by
        rw [hkeys]; exact hnd
      have hpres' : ∀ m ∈ rest,
          ((updateAt ds n (fun d => d.add_race_result rc false)).lookup m).isSome := by
        intro m hm
        rw [lookup_updateAt]
        split
        · rename_i hmn
          rw [hmn, hd]
          rfl
        · exact hpres m (List.mem_cons_of_mem n hm)
      have hwins := sumBy_updateAt Driver.wins ds n (fun d => d.add_race_result rc false) d hnd hd
      have hlosses :=
        sumBy_updateAt Driver.losses ds n (fun d => d.add_race_result rc false) d hnd hd
      rw [add_race_result_wins] at hwins
      rw [add_race_result_losses] at hlosses
      simp at hwins hlosses
      have := ih (updateAt ds n (fun d => d.add_race_result rc false)) hnd' hpres'
      have hfc : (n :: rest).filter (fun x => decide (x ≠ w)) =
          n :: rest.filter (fun x => decide (x ≠ w)) :=
        List.filter_cons_of_pos (by simpa using hw)
      refine ⟨by rw [this.1, hkeys], by rw [this.2.1]; omega, ?_⟩
      rw [this.2.2, hfc]
      simp only [List.length_cons]
      omega

theorem record_race_failure_state (s : TournamentManager) (d1n d2n w : String)
    (d3 : Option String) (rt now : String) (s' : TournamentManager) (m : String)
    (h : s.record_race d1n d2n w d3 rt now = some (s', false, m)) : s' = s := by
  rcases h1 : s.drivers.lookup d1n with _ | driver1 <;>
    rcases h2 : s.drivers.lookup d2n with _ | driver2 <;>
    simp only [TournamentManager.record_race, h1, h2] at h <;>
    [skip; skip; skip; split_ifs at h] <;>
    simp_all

theorem record_race_success_effects (s : TournamentManager) (d1n d2n w : String)
    (d3 : Option String) (rt now : String) (s' : TournamentManager) (m : String)
    (hnd : (s.drivers.map Prod.fst).Nodup)
    (h : s.record_race d1n d2n w d3 rt now = some (s', true, m)) :
    s'.drivers.map Prod.fst = s.drivers.map Prod.fst ∧
    w ∈ racingList d1n d2n d3 ∧
    sumBy Driver.wins s'.drivers = sumBy Driver.wins s.drivers + 1 ∧
    sumBy Driver.losses s'.drivers =
      sumBy Driver.losses s.drivers +
        ((racingList d1n d2n d3).filter (fun n => n ≠ w)).length ∧
    s'.race_counter = s.race_counter + 1 := by
  rcases h1 : s.drivers.lookup d1n with _ | driver1 <;>
      rcases h2 : s.drivers.lookup d2n with _ | driver2 <;>
      simp only [TournamentManager.record_race, h1, h2] at h
  · simp at h
  · simp at h
  · simp at h
  · by_cases hw : w ∈ racingList d1n d2n d3
    case neg => rw [if_pos hw] at h; simp at h
    rw [if_neg (not_not_intro hw)] at h
    by_cases hdiv : driver1.division = driver2.division
    case neg => rw [if_pos hdiv] at h; simp at h
    rw [if_neg (not_ne_iff.mpr hdiv)] at h
    by_cases helim : (driver1.is_eliminated || driver2.is_eliminated) = true
    case pos => rw [if_pos helim] at h; simp at h
    rw [if_neg helim] at h
    by_cases hall : ((racingList d1n d2n d3).all
        fun n => (s.drivers.lookup n).isSome) = true
    case neg => rw [if_neg hall] at h; simp at h
    rw [if_pos hall] at h
    · simp only [Option.some.injEq, Prod.mk.injEq] at h
      obtain ⟨hs', -⟩ := h
      subst hs'
      dsimp only
      have hmem : w ∈ racingList d1n d2n d3 := hw
      have hpres : ∀ n ∈ racingList d1n d2n d3, ((s.drivers).lookup n).isSome := by
        intro n hn
        exact List.all_eq_true.mp hall n hn
      obtain ⟨dW, hdW⟩ := Option.isSome_iff_exists.mp (hpres w hmem)
      have hkeys1 : (updateAt s.drivers w
          (fun d => d.add_race_result (s.race_counter + 1) true)).map Prod.fst =
          s.drivers.map Prod.fst := keys_updateAt ..
      have hnd1 : ((updateAt s.drivers w
          (fun d => d.add_race_result (s.race_counter + 1) true)).map Prod.fst).Nodup := by
        rw [hkeys1]; exact hnd
      have hpres1 : ∀ n ∈ racingList d1n d2n d3,
          ((updateAt s.drivers w
            (fun d => d.add_race_result (s.race_counter + 1) true)).lookup n).isSome := by
        intro n hn
        rw [lookup_updateAt]
        split
        · rename_i hnw
          rw [hnw, hdW]
          rfl
        · exact hpres n hn
      have hwinsW := sumBy_updateAt Driver.wins s.drivers w
        (fun d => d.add_race_result (s.race_counter + 1) true) dW hnd hdW
      have hlossesW := sumBy_updateAt Driver.losses s.drivers w
        (fun d => d.add_race_result (s.race_counter + 1) true) dW hnd hdW
      rw [add_race_result_wins] at hwinsW
      rw [add_race_result_losses] at hlossesW
      simp at hwinsW hlossesW
      have hfold := foldl_losers (s.race_counter + 1) w (racingList d1n d2n d3)
        (updateAt s.drivers w (fun d => d.add_race_result (s.race_counter + 1) true))
        hnd1 hpres1
      refine ⟨by rw [hfold.1, hkeys1], hmem, ?_, ?_, rfl⟩
      · rw [hfold.2.1]
        omega
      · rw [hfold.2.2]
        omega

theorem record_race_none_char (s : TournamentManager) (d1n d2n w : String)
    (d3 : Option String) (rt now : String) :
    s.record_race d1n d2n w d3 rt now = none ↔
      ∃ driver1 driver2,
        s.drivers.lookup d1n = some driver1 ∧ s.drivers.lookup d2n = some driver2 ∧
        w ∈ racingList d1n d2n d3 ∧ driver1.division = driver2.division ∧
        driver1.is_eliminated = false ∧ driver2.is_eliminated = false ∧
        truthy d3 = true ∧ s.drivers.lookup (d3.getD "") = none := by
  rcases h1 : s.drivers.lookup d1n with _ | driver1 <;>
      rcases h2 : s.drivers.lookup d2n with _ | driver2 <;>
      simp only [TournamentManager.record_race, h1, h2]
  · simp
  · simp
  · simp
  · constructor
    · intro h
      by_cases hw : w ∈ racingList d1n d2n d3
      case neg => rw [if_pos hw] at h; simp at h
      rw [if_neg (not_not_intro hw)] at h
      by_cases hdiv : driver1.division = driver2.division
      case neg => rw [if_pos hdiv] at h; simp at h
      rw [if_neg (not_ne_iff.mpr hdiv)] at h
      by_cases helim : (driver1.is_eliminated || driver2.is_eliminated) = true
      case pos => rw [if_pos helim] at h; simp at h
      rw [if_neg helim] at h
      by_cases hall : ((racingList d1n d2n d3).all
          fun n => (s.drivers.lookup n).isSome) = true
      case pos => rw [if_pos hall] at h; simp at h
      refine ⟨driver1, driver2, rfl, rfl, hw, hdiv, ?_⟩
      simp only [Bool.or_eq_true, not_or, Bool.not_eq_true] at helim
      refine ⟨helim.1, helim.2, ?_⟩
      rcases htr : truthy d3 with _ | _
      · exfalso
        apply hall
        rw [List.all_eq_true]
        intro n hn
        rw [racingList, htr] at hn
        simp only [Bool.false_eq_true, if_false, List.mem_cons, List.not_mem_nil] at hn
        rcases hn with hn | hn | hn
        · subst hn; rw [h1]; rfl
        · subst hn; rw [h2]; rfl
        · exact absurd hn (by simp)
      · refine ⟨rfl, ?_⟩
        by_contra hne
        apply hall
        rw [List.all_eq_true]
        intro n hn
        rw [racingList, htr, if_pos rfl] at hn
        simp only [List.mem_cons, List.not_mem_nil, or_false] at hn
        rcases hn with hn | hn | hn
        · subst hn; rw [h1]; rfl
        · subst hn; rw [h2]; rfl
        · subst hn
          rw [Option.isSome_iff_ne_none]
          exact hne
    · rintro ⟨e1, e2, he1, he2, hw, hdiv, h1e, h2e, htr, hnone⟩
      rw [Option.some.injEq] at he1 he2
      subst he1
      subst he2
      rw [if_neg (not_not_intro hw), if_neg (not_ne_iff.mpr hdiv)]
      rw [h1e, h2e]
      have hall : ((racingList d1n d2n d3).all
          fun n => (s.drivers.lookup n).isSome) = false := by
        rw [List.all_eq_false]
        refine ⟨d3.getD "", ?_, ?_⟩
        · rw [racingList, htr, if_pos rfl]
          simp
        · rw [hnone]
          simp
      simp [hall]

theorem rankLe_trans : ∀ a b c : Driver, rankLe a b → rankLe b c → rankLe a c := by
  intro a b c hab hbc
  exact decide_eq_true (le_trans (of_decide_eq_true hab) (of_decide_eq_true hbc))

theorem rankLe_total : ∀ a b : Driver, rankLe a b || rankLe b a := by
  intro a b
  rcases le_total (rankKey a) (rankKey b) with h | h
  · simp [rankLe, h]
  · simp [rankLe, h]

theorem clearPos_rankEntry (i : Nat) (d : Driver) :
    clearPos (rankEntry i d) = rankEntry 0 d := rfl

theorem recKey_rankEntry (i : Nat) (d : Driver) :
    recKey (rankEntry i d) = rankKey d := rfl

theorem enumerate1_map_clearPos (i : Nat) (l : List Driver) :
    (enumerate1 i l).map clearPos = l.map (rankEntry 0) := by
  induction l generalizing i with
  | nil => rfl
  | cons d ds ih => simp [enumerate1, clearPos_rankEntry, ih]

theorem enumerate1_positions (i : Nat) (l : List Driver) :
    (enumerate1 i l).map RankRecord.position = List.range' i l.length := by
  induction l generalizing i with
  | nil => rfl
  | cons d ds ih =>
    rw [enumerate1, List.map_cons, List.length_cons, List.range'_succ, ih]
    rfl

theorem mem_enumerate1 (x : RankRecord) (i : Nat) (l : List Driver) :
    x ∈ enumerate1 i l → ∃ j d, d ∈ l ∧ x = rankEntry j d := by
  induction l generalizing i with
  | nil => intro h; exact absurd h (by simp [enumerate1])
  | cons d ds ih =>
    intro h
    rw [enumerate1, List.mem_cons] at h
    rcases h with h | h
    · exact ⟨i, d, List.mem_cons_self d ds, h⟩
    · obtain ⟨j, e, he, hx⟩ := ih (i + 1) h
      exact ⟨j, e, List.mem_cons_of_mem d he, hx⟩

theorem enumerate1_pairwise (i : Nat) (l : List Driver)
    (h : l.Pairwise (fun a b => rankLe a b)) :
    (enumerate1 i l).Pairwise (fun a b => recKey a ≤ recKey b) := by
  induction l generalizing i with
  | nil => exact List.Pairwise.nil
  | cons d ds ih =>
    rw [enumerate1]
    rcases List.pairwise_cons.mp h with ⟨hd, hds⟩
    refine List.pairwise_cons.mpr ⟨?_, ih (i + 1) hds⟩
    intro x hx
    obtain ⟨j, e, he, rfl⟩ := mem_enumerate1 x (i + 1) ds hx
    rw [recKey_rankEntry, recKey_rankEntry]
    exact of_decide_eq_true (hd e he)

theorem mergeSort_filter_key (l : List Driver) (k : RankKey) :
    (l.mergeSort rankLe).filter (fun d => decide (rankKey d = k)) =
      l.filter (fun d => decide (rankKey d = k)) := by
  have hc : (l.filter (fun d => decide (rankKey d = k))).Pairwise
      (fun a b => rankLe a b) := by
    apply List.pairwise_of_forall_mem_list
    intro a ha b hb
    have ha' := List.of_mem_filter ha
    have hb' := List.of_mem_filter hb
    have hka : rankKey a = k := of_decide_eq_true ha'
    have hkb : rankKey b = k := of_decide_eq_true hb'
    have : rankKey a ≤ rankKey b := by rw [hka, hkb]
    exact decide_eq_true this
  have hsub : List.Sublist (l.filter (fun d => decide (rankKey d = k)))
      (l.mergeSort rankLe) :=
    List.sublist_mergeSort rankLe_trans rankLe_total hc (List.filter_sublist l)
  have hsub2 : List.Sublist (l.filter (fun d => decide (rankKey d = k)))
      ((l.mergeSort rankLe).filter (fun d => decide (rankKey d = k))) := by
    have h2 := List.Sublist.filter (fun d => decide (rankKey d = k)) hsub
    have hall2 : ∀ a ∈ l.filter (fun d => decide (rankKey d = k)),
        decide (rankKey a = k) = true := fun a ha => (List.mem_filter.mp ha).2
    rwa [List.filter_eq_self.mpr hall2] at h2
  have hperm : ((l.mergeSort rankLe).filter (fun d => decide (rankKey d = k))).length =
      (l.filter (fun d => decide (rankKey d = k))).length :=
    ((l.mergeSort_perm rankLe).filter (fun d => decide (rankKey d = k))).length_eq
  exact (hsub2.eq_of_length hperm.symm).symm

theorem racing_filter_length (d1 d2 : String) (d3 : Option String) (w : String)
    (hw : w ∈ racingList d1 d2 d3)
    (h12 : d1 ≠ d2)
    (h3 : truthy d3 = true → d3.getD "" ≠ d1 ∧ d3.getD "" ≠ d2) :
    ((racingList d1 d2 d3).filter (fun n => n ≠ w)).length + 1 =
      (racingList d1 d2 d3).length := by
  have h21 : d2 ≠ d1 := Ne.symm h12
  rcases htr : truthy d3 with _ | _
  · rw [racingList, htr] at hw ⊢
    simp only [Bool.false_eq_true, if_false] at hw ⊢
    simp only [List.mem_cons, List.not_mem_nil, or_false] at hw
    rcases hw with rfl | rfl
    · simp [List.filter_cons, h21]
    · simp [List.filter_cons, h12]
  · obtain ⟨h31, h32⟩ := h3 htr
    have h13 : d1 ≠ d3.getD "" := Ne.symm h31
    have h23 : d2 ≠ d3.getD "" := Ne.symm h32
    rw [racingList, htr] at hw ⊢
    simp only [if_pos] at hw ⊢
    simp only [List.mem_cons, List.not_mem_nil, or_false] at hw
    rcases hw with rfl | rfl | rfl
    · simp [List.filter_cons, h21, h31]
    · simp [List.filter_cons, h12, h32]
    · simp [List.filter_cons, h13, h23]

theorem runRaces_invariant (now : String) :
    ∀ (cs : List RaceCmd) (s : TournamentManager),
    (s.drivers.map Prod.fst).Nodup →
    (∀ c ∈ cs, truthy c.driver3 = true → c.driver3.getD "" ∈ s.drivers.map Prod.fst) →
    (∀ c ∈ cs, c.driver1 ≠ c.driver2 ∧
      (truthy c.driver3 = true →
        c.driver3.getD "" ≠ c.driver1 ∧ c.driver3.getD "" ≠ c.driver2)) →
    ((runRaces now s cs).1.drivers.map Prod.fst = s.drivers.map Prod.fst ∧
      sumBy Driver.wins (runRaces now s cs).1.drivers =
        sumBy Driver.wins s.drivers + (runRaces now s cs).2.1 ∧
      sumBy Driver.losses (runRaces now s cs).1.drivers + (runRaces now s cs).2.1 =
        sumBy Driver.losses s.drivers + (runRaces now s cs).2.2) := by
  intro cs
  induction cs with
  | nil => intro s _ _ _; simp [runRaces]
  | cons c rest ih =>
    intro s hnd hclosed hdist
    rcases hr : s.record_race c.driver1 c.driver2 c.winner c.driver3 c.race_type now
      with _ | ⟨s', b, m⟩
    · exfalso
      obtain ⟨e1, e2, he1, he2, hwm, hdv, h1e, h2e, htr, hnone⟩ :=
        (record_race_none_char s c.driver1 c.driver2 c.winner c.driver3
          c.race_type now).mp hr
      have hmem := hclosed c (List.mem_cons_self c rest) htr
      rw [← lookup_isSome_iff, hnone] at hmem
      simp at hmem
    · cases b with
      | false =>
        have hs' : s' = s :=
          record_race_failure_state s c.driver1 c.driver2 c.winner c.driver3
            c.race_type now s' m hr
        rw [hs'] at hr
        simp only [runRaces, hr]
        exact ih s hnd
          (fun c' h => hclosed c' (List.mem_cons_of_mem c h))
          (fun c' h => hdist c' (List.mem_cons_of_mem c h))
      | true =>
        obtain ⟨hkeys, hwmem, hwins, hlosses, -⟩ :=
          record_race_success_effects s c.driver1 c.driver2 c.winner c.driver3
            c.race_type now s' m hnd hr
        have hnd' : (s'.drivers.map Prod.fst).Nodup := by rw [hkeys]; exact hnd
        have hclosed' : ∀ c' ∈ rest,
            truthy c'.driver3 = true → c'.driver3.getD "" ∈ s'.drivers.map Prod.fst := by
          intro c' h htr
          rw [hkeys]
          exact hclosed c' (List.mem_cons_of_mem c h) htr
        have hih := ih s' hnd' hclosed' (fun c' h => hdist c' (List.mem_cons_of_mem c h))
        have hflen := racing_filter_length c.driver1 c.driver2 c.driver3 c.winner hwmem
          (hdist c (List.mem_cons_self c rest)).1
          (hdist c (List.mem_cons_self c rest)).2
        simp only [runRaces, hr]
        refine ⟨by rw [hih.1, hkeys], ?_, ?_⟩
        · have := hih.2.1
          omega
        · have h1 := hih.2.2
          omega

theorem lookup_eq_none_of_not_mem (ds : List (String × Driver)) (n : String)
    (h : n ∉ ds.map Prod.fst) : ds.lookup n = none := by
  rw [← Option.not_isSome_iff_eq_none]
  intro hs
  exact h ((lookup_isSome_iff ds n).mp hs)

theorem lookup_eraseP (ds : List (String × Driver)) (dn k : String)
    (hnd : (ds.map Prod.fst).Nodup) :
    (ds.eraseP (fun p => p.1 == dn)).lookup k =
      if k = dn then none else ds.lookup k := by
  induction ds with
  | nil =>
    rw [List.eraseP_nil]
    split <;> rfl
  | cons p tl ih =>
    obtain ⟨k0, d0⟩ := p
    simp only [List.map_cons, List.nodup_cons] at hnd
    by_cases h0 : k0 = dn
    · rw [List.eraseP_cons, show (((k0, d0).1 == dn) = true) by simp [h0], cond_true]
      by_cases hk : k = dn
      · rw [if_pos hk, hk, ← h0]
        exact lookup_eq_none_of_not_mem tl k0 hnd.1
      · rw [if_neg hk, lookup_cons_ne k k0 d0 tl (fun he => hk (he.trans h0))]
    · rw [List.eraseP_cons, show (((k0, d0).1 == dn) = false) by simp [h0], cond_false]
      by_cases hk : k = k0
      · subst hk
        rw [lookup_cons_self, lookup_cons_self, if_neg h0]
      · rw [lookup_cons_ne k k0 d0 _ hk, lookup_cons_ne k k0 d0 tl hk, ih hnd.2]

theorem lookup_append_single (ds : List (String × Driver)) (nn : String) (d' : Driver)
    (k : String) :
    (ds ++ [(nn, d')]).lookup k =
      (match ds.lookup k with
       | some d => some d
       | none => if k = nn then some d' else none) := by
  induction ds with
  | nil =>
    simp only [List.nil_append, List.lookup]
    by_cases h : k = nn
    · subst h; simp [List.lookup]
    · simp [List.lookup, beq_false_of_ne h, h]
  | cons p tl ih =>
    obtain ⟨k0, d0⟩ := p
    by_cases h : k = k0
    · subst h
      rw [List.cons_append, lookup_cons_self, lookup_cons_self]
    · rw [List.cons_append, lookup_cons_ne k k0 d0 _ h, lookup_cons_ne k k0 d0 tl h, ih]

theorem record_race_success_counter (s : TournamentManager) (d1n d2n w : String)
    (d3 : Option String) (rt now : String) (s' : TournamentManager) (m : String)
    (h : s.record_race d1n d2n w d3 rt now = some (s', true, m)) :
    s'.race_counter = s.race_counter + 1 := by
  rcases h1 : s.drivers.lookup d1n with _ | driver1 <;>
      rcases h2 : s.drivers.lookup d2n with _ | driver2 <;>
      simp only [TournamentManager.record_race, h1, h2] at h
  · simp at h
  · simp at h
  · simp at h
  · by_cases hw : w ∈ racingList d1n d2n d3
    case neg => rw [if_pos hw] at h; simp at h
    rw [if_neg (not_not_intro hw)] at h
    by_cases hdiv : driver1.division = driver2.division
    case neg => rw [if_pos hdiv] at h; simp at h
    rw [if_neg (not_ne_iff.mpr hdiv)] at h
    by_cases helim : (driver1.is_eliminated || driver2.is_eliminated) = true
    case pos => rw [if_pos helim] at h; simp at h
    rw [if_neg helim] at h
    by_cases hall : ((racingList d1n d2n d3).all
        fun n => (s.drivers.lookup n).isSome) = true
    case neg => rw [if_neg hall] at h; simp at h
    rw [if_pos hall] at h
    simp only [Option.some.injEq, Prod.mk.injEq] at h
    obtain ⟨hs', -⟩ := h
    subst hs'
    rfl

/-! ### Example states used by counterexamples and witnesses -/

/-- Two fresh drivers in the OPEN division. -/
def exAlice : Driver := Driver.mk "Alice" "OPEN" 0 0 [] DriverStatus.ACTIVE

def exBob : Driver := Driver.mk "Bob" "OPEN" 0 0 [] DriverStatus.ACTIVE

def exPair : TournamentManager :=
  TournamentManager.mk [("Alice", exAlice), ("Bob", exBob)] [] 0

/-- A driver with three losses whose stored status was never recomputed
(reachable through import). -/
def exStaleA : Driver := Driver.mk "A" "OPEN" 0 3 [] DriverStatus.ACTIVE

/-- A driver with a win whose stored status says ELIMINATED (stale). -/
def exStaleB : Driver := Driver.mk "B" "OPEN" 1 0 [] DriverStatus.ELIMINATED

def exStaleState : TournamentManager :=
  TournamentManager.mk [("A", exStaleA), ("B", exStaleB)] [] 0

/-! ### Claim theorems -/

/-- C1, counterexample: `record_race` on two existing OPEN drivers with a
third participant name absent from the drivers mapping does NOT return a
`(success, message)` pair; it raises a `KeyError` (modelled by `none`)
when the body indexes `self.drivers` with the absent name. -/
theorem record_race_absent_driver3_raises :
    exPair.record_race "Alice" "Bob" "Alice" (some "Ghost") "championship" "t" = none := by
  decide

/-- C1, amended: `add_driver`, `get_rankings`, `get_active_drivers` and
`get_tournament_stats` are total; `record_race` returns a normal
boolean-and-message result except in exactly one situation, in which it
raises: all four validations pass, a truthy `driver3_name` was supplied,
and that name is not a key of the drivers mapping. -/
theorem record_race_normal_return_iff (s : TournamentManager) (d1n d2n w : String)
    (d3 : Option String) (rt now : String) :
    s.record_race d1n d2n w d3 rt now = none ↔
      ∃ driver1 driver2,
        s.drivers.lookup d1n = some driver1 ∧ s.drivers.lookup d2n = some driver2 ∧
        w ∈ racingList d1n d2n d3 ∧ driver1.division = driver2.division ∧
        driver1.is_eliminated = false ∧ driver2.is_eliminated = false ∧
        truthy d3 = true ∧ s.drivers.lookup (d3.getD "") = none :=
  record_race_none_char s d1n d2n w d3 rt now

/-- Method `update_status` writes exactly the status derived from the loss
count, and touches nothing else the claims read. -/
theorem update_status_spec (d : Driver) :
    d.update_status.status =
      (if 3 ≤ d.losses then DriverStatus.ELIMINATED else DriverStatus.ACTIVE) ∧
    d.update_status.losses = d.losses := by
  rw [Driver.update_status, Driver.is_eliminated]
  by_cases h : 3 ≤ d.losses
  · rw [if_pos (decide_eq_true h), if_pos h]
    exact ⟨rfl, rfl⟩
  · rw [if_neg (by simpa using h), if_neg h]
    exact ⟨rfl, rfl⟩

/-- C3: immediately after every `add_race_result` call the stored status
is ELIMINATED exactly when `losses >= 3` and ACTIVE otherwise — it is
never stale. -/
theorem status_never_stale_after_result (d : Driver) (race_number : Nat) (won : Bool) :
    (d.add_race_result race_number won).status =
      (if 3 ≤ (d.add_race_result race_number won).losses then DriverStatus.ELIMINATED
       else DriverStatus.ACTIVE) := by
  simp only [Driver.add_race_result]
  rw [(update_status_spec _).2, (update_status_spec _).1]

/-- C4: a `record_race` call that returns success leaves `race_counter`
at exactly its prior value plus one; a call that returns failure leaves
both `race_counter` and the race log unchanged. -/
theorem race_counter_increment_on_success_only (s : TournamentManager)
    (d1n d2n w : String) (d3 : Option String) (rt now : String) :
    (match s.record_race d1n d2n w d3 rt now with
     | some (s', true, _) => s'.race_counter = s.race_counter + 1
     | some (s', false, _) => s'.race_counter = s.race_counter ∧ s'.races = s.races
     | none => True) := by
  rcases hr : s.record_race d1n d2n w d3 rt now with _ | ⟨s', b, m⟩
  · trivial
  · cases b with
    | false =>
      have hs' : s' = s := record_race_failure_state s d1n d2n w d3 rt now s' m hr
      simp [hs']
    | true =>
      exact record_race_success_counter s d1n d2n w d3 rt now s' m hr

/-- C5: `record_race` reports failure exactly when one of the four
validations fails, and the message returned is the one belonging to the
first failing check in the order: existence of the two primary drivers,
winner membership, equal divisions, neither primary driver eliminated. -/
theorem record_race_validation_order (s : TournamentManager) (d1n d2n w : String)
    (d3 : Option String) (rt now : String) :
    failureOf (s.record_race d1n d2n w d3 rt now) =
      (specFirstFailure s d1n d2n w d3).map FailKind.message := by
  rcases h1 : s.drivers.lookup d1n with _ | driver1 <;>
      rcases h2 : s.drivers.lookup d2n with _ | driver2 <;>
      simp only [TournamentManager.record_race, specFirstFailure, h1, h2]
  · rfl
  · rfl
  · rfl
  · by_cases hw : w ∈ racingList d1n d2n d3
    case neg => rw [if_pos hw, if_pos hw]; rfl
    rw [if_neg (not_not_intro hw), if_neg (not_not_intro hw)]
    by_cases hdiv : driver1.division = driver2.division
    case neg => rw [if_pos hdiv, if_pos hdiv]; rfl
    rw [if_neg (not_ne_iff.mpr hdiv), if_neg (not_ne_iff.mpr hdiv)]
    by_cases helim : (driver1.is_eliminated || driver2.is_eliminated) = true
    case pos => rw [if_pos helim, if_pos helim]; rfl
    rw [if_neg helim, if_neg helim]
    by_cases hall : ((racingList d1n d2n d3).all
        fun n => (s.drivers.lookup n).isSome) = true
    · rw [if_pos hall]; rfl
    · rw [if_neg hall]; rfl

/-- C2, counterexample: the sort key's first component is the STORED
status field (`d.status == DriverStatus.ELIMINATED`), not the derived
`is_eliminated` predicate the claim states. On a mapping with stale
statuses — A has 3 losses but stored status ACTIVE, B has a win but
stored status ELIMINATED — the returned order is not ascending in the
claim's key `(is_eliminated, -wins, -win_ratio, losses)`. -/
theorem get_rankings_not_claim_key_sorted :
    ¬ (exStaleState.get_rankings none).Pairwise
        (fun a b => claimRecKey a ≤ claimRecKey b) := by
  have hpool : rankPool exStaleState none = [exStaleA, exStaleB] := rfl
  have hsorted : List.Pairwise (fun a b => rankLe a b) [exStaleA, exStaleB] := by decide
  have hms : List.mergeSort [exStaleA, exStaleB] rankLe = [exStaleA, exStaleB] :=
    List.mergeSort_of_sorted hsorted
  have hr : exStaleState.get_rankings none = enumerate1 1 [exStaleA, exStaleB] := by
    rw [TournamentManager.get_rankings, hpool, hms]
  rw [hr]
  decide

/-- C2, amended: `get_rankings` returns exactly the (optionally division
filtered) drivers, sorted ascending by the lexicographic key
`(status == ELIMINATED, -wins, -win_ratio, losses)` — the first component
is the STORED status field, which coincides with the derived
`losses >= 3` predicate on states maintained by the core but not on
imported stale states — with ties kept stable in original iteration
order, and each record carries a 1-based position equal to its index. -/
theorem get_rankings_sorted_stable_positions (s : TournamentManager)
    (division : Option String) :
    ((s.get_rankings division).map clearPos).Perm
      ((rankPool s division).map (rankEntry 0)) ∧
    (s.get_rankings division).Pairwise (fun a b => recKey a ≤ recKey b) ∧
    (∀ k : RankKey,
      ((s.get_rankings division).map clearPos).filter (fun r => decide (recKey r = k)) =
        ((rankPool s division).map (rankEntry 0)).filter (fun r => decide (recKey r = k))) ∧
    (s.get_rankings division).map RankRecord.position =
      List.range' 1 (rankPool s division).length := by
  refine ⟨?_, ?_, ?_, ?_⟩
  · rw [TournamentManager.get_rankings, enumerate1_map_clearPos]
    exact ((rankPool s division).mergeSort_perm rankLe).map (rankEntry 0)
  · rw [TournamentManager.get_rankings]
    exact enumerate1_pairwise 1 _ (List.sorted_mergeSort rankLe_trans rankLe_total _)
  · intro k
    have hfun : ((fun r => decide (recKey r = k)) ∘ rankEntry 0) =
        (fun d => decide (rankKey d = k)) := rfl
    rw [TournamentManager.get_rankings, enumerate1_map_clearPos,
      List.filter_map, List.filter_map, hfun, mergeSort_filter_key]
  · rw [TournamentManager.get_rankings, enumerate1_positions, List.length_mergeSort]

theorem driver_roundtrip (d : Driver) : Driver.from_dict d.to_dict = d := rfl

theorem race_roundtrip (r : Race) (now : String) (h : r.timestamp ≠ "") :
    Race.of_dict r.to_dict now = r := by
  unfold Race.of_dict Race.to_dict Race.init
  simp only [Option.getD_some]
  rw [if_neg h]

/-- C6: exporting a snapshot and importing it reproduces the state:
the same drivers mapping field-for-field, the same race list
field-for-field, and the prior `race_counter`. The hypothesis reflects
that every `Race` object carries a nonempty creation timestamp (the
constructor replaces a falsy timestamp with the current time, and
`isoformat()` is never empty). -/
theorem snapshot_roundtrip (s : TournamentManager) (now : String)
    (h : ∀ r ∈ s.races, r.timestamp ≠ "") :
    TournamentManager.from_dict s.to_dict now = s := by
  obtain ⟨drivers, races, rc⟩ := s
  simp only [TournamentManager.to_dict, TournamentManager.from_dict, List.map_map,
    Option.getD_some, TournamentManager.mk.injEq]
  refine ⟨?_, ?_, trivial⟩
  · rw [show ((fun p => (p.1, Driver.from_dict p.2)) ∘
        fun p : String × Driver => (p.1, Driver.to_dict p.2)) = id from rfl]
    exact List.map_id drivers
  · have hrt : ∀ r ∈ races, ((fun r => Race.of_dict r now) ∘ Race.to_dict) r = id r :=
      fun r hr => race_roundtrip r now (h r hr)
    rw [List.map_congr_left hrt]
    exact List.map_id races

/-- Snapshot state with one recorded race for the round-trip witness. -/
def exRace : Race :=
  Race.mk 1 "Alice" "Bob" "Alice" "OPEN" "2024-05-01T10:00:00" none "regular"

def exSnapState : TournamentManager :=
  TournamentManager.mk
    [("Alice", Driver.mk "Alice" "OPEN" 1 0 [1] DriverStatus.ACTIVE),
     ("Bob", Driver.mk "Bob" "OPEN" 0 1 [1] DriverStatus.ACTIVE)]
    [exRace] 1

theorem snapshot_roundtrip_witness :
    TournamentManager.from_dict exSnapState.to_dict "now" = exSnapState :=
  snapshot_roundtrip exSnapState "now" (by decide)

/-- C7: import reconstructs each driver with the documented defaults for
absent `wins`/`losses`/`races`/`status`, replaces the race list wholesale
by reconstructing each race from its serialized fields, and sets
`race_counter` to the supplied value or, when the key is absent, to the
number of imported races. -/
theorem import_defaults_and_counter (data : TournamentSnapshot) (now : String) :
    (TournamentManager.from_dict data now).drivers =
      data.drivers.map (fun p => (p.1,
        ({ name := p.2.name, division := p.2.division, wins := p.2.wins.getD 0,
           losses := p.2.losses.getD 0, races := p.2.races.getD [],
           status := p.2.status.getD DriverStatus.ACTIVE } : Driver))) ∧
    (TournamentManager.from_dict data now).races =
      data.races.map (fun r => Race.of_dict r now) ∧
    (TournamentManager.from_dict data now).race_counter =
      (match data.race_counter with
       | some c => c
       | none => data.races.length) := by
  refine ⟨rfl, rfl, ?_⟩
  show data.race_counter.getD data.races.length =
    (match data.race_counter with
     | some c => c
     | none => data.races.length)
  cases data.race_counter <;> rfl

/-- One driver racing against itself: the code accepts it. -/
def exSolo : TournamentManager :=
  TournamentManager.mk [("Al", Driver.mk "Al" "OPEN" 0 0 [] DriverStatus.ACTIVE)] [] 0

def exSelfRace : RaceCmd := RaceCmd.mk "Al" "Al" "Al" none "regular"

/-- C8, counterexample: recording the race (Al, Al, winner Al) succeeds
(one successful recording, N = 1, two participant slots) but produces 0
losses, not slots - N = 1: the loser loop skips every entry equal to the
winner, so duplicated participants break the slot accounting. -/
theorem sum_losses_slots_cex :
    (runRaces "t" exSolo [exSelfRace]).2.1 = 1 ∧
    sumBy Driver.losses (runRaces "t" exSolo [exSelfRace]).1.drivers ≠
      (runRaces "t" exSolo [exSelfRace]).2.2 - (runRaces "t" exSolo [exSelfRace]).2.1 := by
  decide

/-- C8, amended: starting from drivers with zero wins and losses, after
any request sequence whose races have pairwise-distinct participants
(and any third participant drawn from the closed driver set), the sum of
wins equals the number N of successful recordings and the sum of losses
equals the total participant slots of those recordings minus N. -/
theorem wins_losses_accounting (s0 : TournamentManager) (cs : List RaceCmd) (now : String)
    (hnd : (s0.drivers.map Prod.fst).Nodup)
    (hzero : ∀ p ∈ s0.drivers, p.2.wins = 0 ∧ p.2.losses = 0)
    (hclosed : ∀ c ∈ cs, truthy c.driver3 = true →
      c.driver3.getD "" ∈ s0.drivers.map Prod.fst)
    (hdistinct : ∀ c ∈ cs, c.driver1 ≠ c.driver2 ∧
      (truthy c.driver3 = true →
        c.driver3.getD "" ≠ c.driver1 ∧ c.driver3.getD "" ≠ c.driver2)) :
    sumBy Driver.wins (runRaces now s0 cs).1.drivers = (runRaces now s0 cs).2.1 ∧
    sumBy Driver.losses (runRaces now s0 cs).1.drivers + (runRaces now s0 cs).2.1 =
      (runRaces now s0 cs).2.2 := by
  have hW : sumBy Driver.wins s0.drivers = 0 := by
    show (s0.drivers.map (fun p => Driver.wins p.2)).sum = 0
    apply List.sum_eq_zero
    intro x hx
    obtain ⟨p, hp, rfl⟩ := List.mem_map.mp hx
    exact (hzero p hp).1
  have hL : sumBy Driver.losses s0.drivers = 0 := by
    show (s0.drivers.map (fun p => Driver.losses p.2)).sum = 0
    apply List.sum_eq_zero
    intro x hx
    obtain ⟨p, hp, rfl⟩ := List.mem_map.mp hx
    exact (hzero p hp).2
  have hinv := runRaces_invariant now cs s0 hnd hclosed hdistinct
  have h1 := hinv.2.1
  have h2 := hinv.2.2
  exact ⟨by omega, by omega⟩

def exRace1 : RaceCmd := RaceCmd.mk "Alice" "Bob" "Alice" none "regular"

theorem wins_losses_accounting_witness :
    sumBy Driver.wins (runRaces "t" exPair [exRace1]).1.drivers =
      (runRaces "t" exPair [exRace1]).2.1 ∧
    sumBy Driver.losses (runRaces "t" exPair [exRace1]).1.drivers +
        (runRaces "t" exPair [exRace1]).2.1 =
      (runRaces "t" exPair [exRace1]).2.2 :=
  wins_losses_accounting exPair [exRace1] "t" (by decide) (by decide) (by decide)
    (by decide)

/-- C10: with the two primary drivers present, the winner among the
participants, equal divisions and (when truthy) an existing third
driver, recording succeeds exactly when both primary drivers have fewer
than 3 losses — the stored status field plays no role in the
elimination check. -/
theorem elimination_check_uses_losses_only (s : TournamentManager)
    (d1n d2n w : String) (d3 : Option String) (rt now : String)
    (driver1 driver2 : Driver)
    (h1 : s.drivers.lookup d1n = some driver1)
    (h2 : s.drivers.lookup d2n = some driver2)
    (hwin : w ∈ racingList d1n d2n d3)
    (hdiv : driver1.division = driver2.division)
    (h3 : truthy d3 = true → (s.drivers.lookup (d3.getD "")).isSome) :
    ((s.record_race d1n d2n w d3 rt now).map (fun r => r.2.1) = some true) ↔
      (driver1.losses < 3 ∧ driver2.losses < 3) := by
  have hall : ((racingList d1n d2n d3).all
      fun n => (s.drivers.lookup n).isSome) = true := by
    rw [List.all_eq_true]
    intro n hn
    rw [racingList] at hn
    rcases htr : truthy d3 with _ | _
    · rw [htr] at hn
      simp only [Bool.false_eq_true, if_false, List.mem_cons, List.not_mem_nil,
        or_false] at hn
      rcases hn with rfl | rfl
      · rw [h1]; rfl
      · rw [h2]; rfl
    · rw [htr, if_pos rfl] at hn
      simp only [List.mem_cons, List.not_mem_nil, or_false] at hn
      rcases hn with rfl | rfl | rfl
      · rw [h1]; rfl
      · rw [h2]; rfl
      · exact h3 htr
  simp only [TournamentManager.record_race, h1, h2]
  rw [if_neg (not_not_intro hwin), if_neg (not_ne_iff.mpr hdiv)]
  by_cases helim : (driver1.is_eliminated || driver2.is_eliminated) = true
  · rw [if_pos helim]
    rw [Driver.is_eliminated, Driver.is_eliminated] at helim
    simp only [Bool.or_eq_true, decide_eq_true_eq] at helim
    constructor
    · intro hc
      exact absurd hc (by simp)
    · intro hc
      exfalso
      omega
  · rw [if_neg helim, if_pos hall]
    rw [Driver.is_eliminated, Driver.is_eliminated] at helim
    simp only [Bool.or_eq_true, decide_eq_true_eq, not_or, not_le] at helim
    constructor
    · intro _
      exact helim
    · intro _
      rfl

/-- Drivers whose stored status disagrees with their loss counts. -/
def exEve : Driver := Driver.mk "Eve" "OPEN" 0 0 [] DriverStatus.ELIMINATED

def exIna : Driver := Driver.mk "Ina" "OPEN" 0 0 [] DriverStatus.INACTIVE

def exAct : Driver := Driver.mk "Act" "OPEN" 5 3 [] DriverStatus.ACTIVE

def exStatusState : TournamentManager :=
  TournamentManager.mk [("Eve", exEve), ("Ina", exIna), ("Act", exAct)] [] 0

theorem elimination_check_uses_losses_only_witness :
    ((exStatusState.record_race "Eve" "Ina" "Eve" none "regular" "t").map
        (fun r => r.2.1) = some true) ∧
    ¬ ((exStatusState.record_race "Eve" "Act" "Eve" none "regular" "t").map
        (fun r => r.2.1) = some true) := by
  constructor
  · exact (elimination_check_uses_losses_only exStatusState "Eve" "Ina" "Eve" none
      "regular" "t" exEve exIna rfl rfl (by decide) rfl (by decide)).mpr (by decide)
  · intro hc
    have := (elimination_check_uses_losses_only exStatusState "Eve" "Act" "Eve" none
      "regular" "t" exEve exAct rfl rfl (by decide) rfl (by decide)).mp hc
    exact absurd this.2 (by decide)

/-- C9: a driver update succeeds exactly when the trimmed new name and
division are nonempty, the division is in the fixed set, the target
exists, and the new name (when different from the old) is not already a
key. On success the record is found under the new name with wins, losses
and races unchanged and the division updated (the name field rewritten
only when the name changed), the old key is gone when the name changed,
and every other key is untouched. -/
theorem update_driver_spec (s : TournamentManager) (driver_name : String)
    (name_data division_data : Option String) (nn nd : String)
    (hnn : nn = pyStrip (name_data.getD "")) (hnd2 : nd = pyStrip (division_data.getD ""))
    (hwf : (s.drivers.map Prod.fst).Nodup) :
    ((update_driver s driver_name name_data division_data).2.1 = true ↔
      (nn ≠ "" ∧ nd ≠ "" ∧ nd ∈ divisions ∧ (s.drivers.lookup driver_name).isSome ∧
        (nn = driver_name ∨ (s.drivers.lookup nn).isNone))) ∧
    (∀ d, s.drivers.lookup driver_name = some d →
      ((update_driver s driver_name name_data division_data).2.1 = true →
        ((update_driver s driver_name name_data division_data).1.drivers.lookup nn =
            some { d with name := if nn = driver_name then d.name else nn,
                          division := nd } ∧
          (nn ≠ driver_name →
            (update_driver s driver_name name_data
              division_data).1.drivers.lookup driver_name = none) ∧
          (∀ k, k ≠ driver_name → k ≠ nn →
            (update_driver s driver_name name_data division_data).1.drivers.lookup k =
              s.drivers.lookup k)))) := by
  subst hnn hnd2
  simp only [update_driver]
  by_cases he : pyStrip (name_data.getD "") = "" ∨ pyStrip (division_data.getD "") = ""
  · rw [if_pos he]
    refine ⟨iff_of_false (by simp) ?_, ?_⟩
    · rintro ⟨hn1, hn2, -⟩
      rcases he with he | he
      · exact hn1 he
      · exact hn2 he
    · intro d hd hsucc
      exact absurd hsucc (by simp)
  · rw [if_neg he]
    push_neg at he
    obtain ⟨hne1, hne2⟩ := he
    by_cases hdv : pyStrip (division_data.getD "") ∈ divisions
    case neg =>
      rw [if_pos hdv]
      refine ⟨iff_of_false (by simp) ?_, ?_⟩
      · rintro ⟨-, -, hmem, -⟩
        exact hdv hmem
      · intro d hd hsucc
        exact absurd hsucc (by simp)
    rw [if_neg (not_not_intro hdv)]
    rcases hlk : s.drivers.lookup driver_name with _ | driver
    · dsimp only
      refine ⟨iff_of_false (by simp) ?_, ?_⟩
      · rintro ⟨-, -, -, hsm, -⟩
        exact absurd hsm (by simp)
      · intro d hd hsucc
        exact absurd hd (by simp)
    · dsimp only
      by_cases hcl : pyStrip (name_data.getD "") ≠ driver_name ∧
          (s.drivers.lookup (pyStrip (name_data.getD ""))).isSome
      · rw [if_pos hcl]
        refine ⟨iff_of_false (by simp) ?_, ?_⟩
        · rintro ⟨-, -, -, -, hor⟩
          rcases hor with heq | hnone
          · exact hcl.1 heq
          · rw [Option.isNone_iff_eq_none] at hnone
            rw [hnone] at hcl
            exact absurd hcl.2 (by simp)
        · intro d hd hsucc
          exact absurd hsucc (by simp)
      · rw [if_neg hcl]
        by_cases hmv : pyStrip (name_data.getD "") ≠ driver_name
        · have hnone : s.drivers.lookup (pyStrip (name_data.getD "")) = none := by
            rcases hs : s.drivers.lookup (pyStrip (name_data.getD "")) with _ | dd
            · rfl
            · exact absurd ⟨hmv, by rw [hs]; rfl⟩ hcl
          rw [if_pos hmv]
          constructor
          · exact iff_of_true rfl ⟨hne1, hne2, hdv, rfl,
              Or.inr (by rw [hnone]; rfl)⟩
          · intro d hd hsucc
            rw [Option.some.injEq] at hd
            subst hd
            dsimp only
            refine ⟨?_, ?_, ?_⟩
            · rw [lookup_append_single, lookup_eraseP s.drivers driver_name _ hwf,
                if_neg hmv, hnone]
              dsimp only
              rw [if_pos rfl, if_neg hmv]
            · intro _
              rw [lookup_append_single, lookup_eraseP s.drivers driver_name _ hwf,
                if_pos rfl]
              dsimp only
              rw [if_neg (Ne.symm hmv)]
            · intro k hk1 hk2
              rw [lookup_append_single, lookup_eraseP s.drivers driver_name _ hwf,
                if_neg hk1]
              rcases hks : s.drivers.lookup k with _ | dk
              · dsimp only
                rw [if_neg hk2]
              · rfl
        · have heq : pyStrip (name_data.getD "") = driver_name := not_ne_iff.mp hmv
          rw [if_neg hmv]
          constructor
          · exact iff_of_true rfl ⟨hne1, hne2, hdv, rfl, Or.inl heq⟩
          · intro d hd hsucc
            rw [Option.some.injEq] at hd
            subst hd
            dsimp only
            refine ⟨?_, ?_, ?_⟩
            · rw [lookup_updateAt, if_pos heq, heq, hlk, Option.map_some', if_pos rfl]
            · intro hne
              exact absurd heq hne
            · intro k hk1 hk2
              rw [lookup_updateAt, if_neg hk1]

/-- A state for exercising a successful rename with division change. -/
def exRenameState : TournamentManager :=
  TournamentManager.mk
    [("Al", Driver.mk "Al" "OPEN" 2 1 [1, 2, 3] DriverStatus.ACTIVE),
     ("Cy", Driver.mk "Cy" "DAMES" 0 0 [] DriverStatus.ACTIVE)] [] 3

theorem update_driver_spec_witness :
    ((update_driver exRenameState "Al" (some "Bea") (some "DAMES")).2.1 = true) ∧
    (update_driver exRenameState "Al" (some "Bea")
        (some "DAMES")).1.drivers.lookup "Bea" =
      some (Driver.mk "Bea" "DAMES" 2 1 [1, 2, 3] DriverStatus.ACTIVE) ∧
    (update_driver exRenameState "Al" (some "Bea")
        (some "DAMES")).1.drivers.lookup "Al" = none ∧
    (update_driver exRenameState "Al" (some "Bea")
        (some "DAMES")).1.drivers.lookup "Cy" = exRenameState.drivers.lookup "Cy" := by
  have h := update_driver_spec exRenameState "Al" (some "Bea") (some "DAMES")
    "Bea" "DAMES" (by decide) (by decide) (by decide)
  have hsucc : (update_driver exRenameState "Al" (some "Bea") (some "DAMES")).2.1 =
      true := h.1.mpr (by decide)
  have heff := h.2 (Driver.mk "Al" "OPEN" 2 1 [1, 2, 3] DriverStatus.ACTIVE) rfl hsucc
  exact ⟨hsucc, heff.1, heff.2.1 (by decide), heff.2.2 "Cy" (by decide) (by decide)⟩

end DragRace
